import Mathlib

set_option maxHeartbeats 1000000

/-!
Verification development for the PLM Co-Pilot repository.

The repository has two source files:

* `ingest_data.py` — a batch job loading four CSV tables (parts, suppliers,
  supply-chain edges, compliance records) into a Neo4j graph through Cypher
  `MERGE`/`MATCH`/`SET` queries.  We embed the graph as an explicit list of
  keyed nodes with property maps plus a list of typed relationships, and each
  Cypher batch query as a fold of its per-row effect.
* `app.py` — a Streamlit question-answering handler that guards on the question
  string, invokes a LangChain `GraphCypherQAChain`, and instruments the call
  with token counts and an estimated cost.  We embed the handler as a function
  of an ambient `World` (button state, clock readings, behaviour of the chain)
  so that cross-run properties can be stated.
-/

/-! ## Graph data model (ingest_data.py)

Nodes are keyed the way the Cypher queries merge them: `Part` by `part_id`,
`ProductLine` by `name`, `Supplier` by `supplier_id`, `ComplianceDoc` by
`doc_id`.  The remaining properties are the ones the queries `SET`. -/

inductive NodeKey where
  | part (part_id : String)
  | productLine (line_name : String)
  | supplier (supplier_id : String)
  | complianceDoc (doc_id : String)
deriving DecidableEq

inductive RelType where
  | CONTAINS_PART
  | SUPPLIED_BY
  | HAS_COMPLIANCE
deriving DecidableEq

structure GraphRel where
  relType : RelType
  src : NodeKey
  dst : NodeKey
deriving DecidableEq

/-- Non-key properties a node can carry; each query `SET`s a subset of them. -/
structure Props where
  name : Option String
  region : Option String
  status : Option String
  standard : Option String
deriving DecidableEq

def Props.empty : Props := ⟨none, none, none, none⟩

structure Graph where
  nodes : List (NodeKey × Props)
  rels : List GraphRel
deriving DecidableEq

def Graph.empty : Graph := ⟨[], []⟩

def findProps (k : NodeKey) : List (NodeKey × Props) → Option Props
  | [] => none
  | (k1, p) :: rest => if k1 = k then some p else findProps k rest

def hasNode (k : NodeKey) (g : Graph) : Bool :=
  (findProps k g.nodes).isSome

/-- Cypher `MERGE (n:Label {key: v})`: match the node by key, create it with
empty properties if absent. -/
def mergeNode (k : NodeKey) (g : Graph) : Graph :=
  if hasNode k g then g else ⟨g.nodes ++ [(k, Props.empty)], g.rels⟩

/-- Cypher `SET` on the node(s) with key `k`. -/
def updateProps (k : NodeKey) (f : Props → Props) (g : Graph) : Graph :=
  ⟨g.nodes.map (fun kp => (kp.1, if kp.1 = k then f kp.2 else kp.2)), g.rels⟩

/-- Cypher `MERGE (a)-[:T]->(b)`: create the relationship unless present. -/
def mergeRel (x : GraphRel) (g : Graph) : Graph :=
  if x ∈ g.rels then g else ⟨g.nodes, g.rels ++ [x]⟩

/-! ## CSV rows -/

structure PartRow where
  part_id : String
  part_name : String
  product_line : String
deriving DecidableEq

structure SupplierRow where
  supplier_id : String
  supplier_name : String
  region : String
deriving DecidableEq

structure SupplyChainRow where
  part_id : String
  supplier_id : String
deriving DecidableEq

structure ComplianceRow where
  part_id : String
  doc_id : String
  status : String
  standard : String
deriving DecidableEq

/-! ## Per-row effects of the four batch queries -/

/-- One row of `parts_query`: `MERGE (p:Part {part_id}) SET p.name = part_name
MERGE (pl:ProductLine {name: product_line}) MERGE (pl)-[:CONTAINS_PART]->(p)`. -/
def applyPartRow (g : Graph) (r : PartRow) : Graph :=
  mergeRel ⟨RelType.CONTAINS_PART, NodeKey.productLine r.product_line, NodeKey.part r.part_id⟩
    (mergeNode (NodeKey.productLine r.product_line)
      (updateProps (NodeKey.part r.part_id) (fun p => { p with name := some r.part_name })
        (mergeNode (NodeKey.part r.part_id) g)))

/-- One row of `suppliers_query`: `MERGE (s:Supplier {supplier_id})
SET s.name = supplier_name, s.region = region`. -/
def applySupplierRow (g : Graph) (r : SupplierRow) : Graph :=
  updateProps (NodeKey.supplier r.supplier_id)
    (fun p => { p with name := some r.supplier_name, region := some r.region })
    (mergeNode (NodeKey.supplier r.supplier_id) g)

/-- One row of `supply_chain_query`: `MATCH (p:Part {part_id}) MATCH
(s:Supplier {supplier_id}) MERGE (p)-[:SUPPLIED_BY]->(s)`; a row whose `MATCH`
fails produces nothing. -/
def applySupplyChainRow (g : Graph) (r : SupplyChainRow) : Graph :=
  if hasNode (NodeKey.part r.part_id) g && hasNode (NodeKey.supplier r.supplier_id) g then
    mergeRel ⟨RelType.SUPPLIED_BY, NodeKey.part r.part_id, NodeKey.supplier r.supplier_id⟩ g
  else g

/-- One row of `compliance_query`: `MATCH (p:Part {part_id}) MERGE
(d:ComplianceDoc {doc_id}) SET d.status, d.standard MERGE
(p)-[:HAS_COMPLIANCE]->(d)`; a row whose `MATCH` fails produces nothing. -/
def applyComplianceRow (g : Graph) (r : ComplianceRow) : Graph :=
  if hasNode (NodeKey.part r.part_id) g then
    mergeRel ⟨RelType.HAS_COMPLIANCE, NodeKey.part r.part_id, NodeKey.complianceDoc r.doc_id⟩
      (updateProps (NodeKey.complianceDoc r.doc_id)
        (fun p => { p with status := some r.status, standard := some r.standard })
        (mergeNode (NodeKey.complianceDoc r.doc_id) g))
  else g

/-- `UNWIND $rows AS row ...` processes the batch row by row. -/
def loadParts (rows : List PartRow) (g : Graph) : Graph :=
  rows.foldl applyPartRow g

def loadSuppliers (rows : List SupplierRow) (g : Graph) : Graph :=
  rows.foldl applySupplierRow g

def loadSupplyChain (rows : List SupplyChainRow) (g : Graph) : Graph :=
  rows.foldl applySupplyChainRow g

def loadCompliance (rows : List ComplianceRow) (g : Graph) : Graph :=
  rows.foldl applyComplianceRow g

/-- The four per-table load steps of `Neo4jIngestor.ingest_data`, in source
order: parts, suppliers, supply-chain edges, compliance records. -/
def loadAll (p : List PartRow) (u : List SupplierRow) (s : List SupplyChainRow)
    (c : List ComplianceRow) (g : Graph) : Graph :=
  loadCompliance c (loadSupplyChain s (loadSuppliers u (loadParts p g)))

/-! ## The ingestion run (`ingest_data`), with its query log -/

inductive Query where
  | clearAll
  | createConstraint (label : String) (property : String)
  | loadPartsQ (rows : List PartRow)
  | loadSuppliersQ (rows : List SupplierRow)
  | loadSupplyChainQ (rows : List SupplyChainRow)
  | loadComplianceQ (rows : List ComplianceRow)
deriving DecidableEq

/-- Effect of one query on the graph: `MATCH (n) DETACH DELETE n` empties it,
`CREATE CONSTRAINT IF NOT EXISTS` leaves the data untouched, and each load
query folds its per-row effect. -/
def applyQuery (g : Graph) : Query → Graph
  | Query.clearAll => Graph.empty
  | Query.createConstraint _ _ => g
  | Query.loadPartsQ rows => loadParts rows g
  | Query.loadSuppliersQ rows => loadSuppliers rows g
  | Query.loadSupplyChainQ rows => loadSupplyChain rows g
  | Query.loadComplianceQ rows => loadCompliance rows g

/-- The graph store together with the ordered log of queries issued to it. -/
structure DB where
  graph : Graph
  log : List Query
deriving DecidableEq

def DB.runQuery (db : DB) (q : Query) : DB :=
  ⟨applyQuery db.graph q, db.log ++ [q]⟩

/-- The four CSV files as the ingestor sees them: `none` models a path for
which `os.path.exists` is false, `some rows` a readable file. -/
structure FileSystem where
  partsFile : Option (List PartRow)
  suppliersFile : Option (List SupplierRow)
  supplyChainFile : Option (List SupplyChainRow)
  complianceFile : Option (List ComplianceRow)
deriving DecidableEq

def constraintQueries : List Query :=
  [Query.createConstraint "Part" "part_id",
   Query.createConstraint "Supplier" "supplier_id",
   Query.createConstraint "ProductLine" "name",
   Query.createConstraint "ComplianceDoc" "doc_id"]

/-- The queries a successful run issues, in source order: clear, the four
constraints, then the four batch loads. -/
def ingestLog (p : List PartRow) (u : List SupplierRow) (s : List SupplyChainRow)
    (c : List ComplianceRow) : List Query :=
  Query.clearAll :: constraintQueries ++
    [Query.loadPartsQ p, Query.loadSuppliersQ u, Query.loadSupplyChainQ s,
     Query.loadComplianceQ c]

/-- `Neo4jIngestor.ingest_data`: if any of the four files is missing, print an
error and return before issuing any query; otherwise clear the database, create
the constraints, and run the four batch loads. -/
def ingest_data (fs : FileSystem) (db : DB) : DB :=
  match fs.partsFile, fs.suppliersFile, fs.supplyChainFile, fs.complianceFile with
  | some p, some u, some s, some c =>
    ((((((((db.runQuery Query.clearAll).runQuery
        (Query.createConstraint "Part" "part_id")).runQuery
        (Query.createConstraint "Supplier" "supplier_id")).runQuery
        (Query.createConstraint "ProductLine" "name")).runQuery
        (Query.createConstraint "ComplianceDoc" "doc_id")).runQuery
        (Query.loadPartsQ p)).runQuery
        (Query.loadSuppliersQ u)).runQuery
        (Query.loadSupplyChainQ s)).runQuery
        (Query.loadComplianceQ c)
  | _, _, _, _ => db

/-! ## `run_query` session discipline

`run_query` opens a session with a `with` block, runs the query, and
materializes the cursor into a list before the block closes the session; the
`with` block closes the session on the error path too. -/

inductive SessionEv where
  | openSession
  | runCypher (q : String)
  | fetchRecord (r : List (String × String))
  | closeSession
deriving DecidableEq

/-- `Neo4jIngestor.run_query` modelled with its session-event trace.  `store`
is the behaviour of the Neo4j driver on this query: either a list of records or
an error raised while running the query. -/
def run_query (store : String → Except String (List (List (String × String))))
    (q : String) :
    Except String (List (List (String × String))) × List SessionEv :=
  match store q with
  | Except.ok recs =>
      (Except.ok recs,
        SessionEv.openSession :: SessionEv.runCypher q ::
          (recs.map SessionEv.fetchRecord ++ [SessionEv.closeSession]))
  | Except.error e =>
      (Except.error e,
        [SessionEv.openSession, SessionEv.runCypher q, SessionEv.closeSession])

/-! ## The app handler (app.py) -/

/-- FinOps rate for 1K input tokens (`INPUT_TOKEN_COST = 0.0002 / 1000`). -/
def INPUT_TOKEN_COST : ℚ := 0.0002 / 1000

/-- FinOps rate for 1K output tokens (`OUTPUT_TOKEN_COST = 0.0008 / 1000`). -/
def OUTPUT_TOKEN_COST : ℚ := 0.0008 / 1000

/-- Modelled from the spec: the source tokenizer is the external library call
`tiktoken.get_encoding("cl100k_base")`, a deterministic stateless encoding of
the text; we model it as a deterministic code-point encoding, which is all the
claims about counts depend on. -/
def tiktokenEncode (s : String) : List Nat :=
  s.data.map Char.toNat

/-- `len(tokenizer.encode(text))`. -/
def tokenCount (s : String) : Nat :=
  (tiktokenEncode s).length

/-- `cost = (prompt_tokens * INPUT_TOKEN_COST) + (completion_tokens * OUTPUT_TOKEN_COST)`. -/
def costOf (prompt_tokens completion_tokens : Nat) : ℚ :=
  prompt_tokens * INPUT_TOKEN_COST + completion_tokens * OUTPUT_TOKEN_COST

/-- What `qa_chain.invoke` hands back: `result.get("result", ...)` and
`result.get("intermediate_steps", [{}])[0].get("query", ...)`, each possibly
absent. -/
structure ChainResult where
  result : Option String
  intermediate_query : Option String
deriving DecidableEq

/-- Ambient state of one button press: whether the button fired, the two
`perf_counter` readings, and the behaviour of the QA chain on this run. -/
structure World where
  buttonPressed : Bool
  start_time : ℚ
  end_time : ℚ
  chain : String → ChainResult

/-- Everything the handler computes and displays for one question. -/
structure Metrics where
  answer : String
  cypher_query : String
  prompt_tokens : Nat
  completion_tokens : Nat
  total_tokens : Nat
  latency : ℚ
  cost : ℚ
deriving DecidableEq

/-- The `if st.button("Ask Co-Pilot") and user_question:` handler body.
`and user_question` is Python truthiness: the body runs exactly when the
question string is non-empty.  Returns `none` when the guard rejects. -/
def askHandler (w : World) (user_question : String) : Option Metrics :=
  if w.buttonPressed && user_question != "" then
    let prompt_tokens := tokenCount user_question
    let res := w.chain user_question
    let answer := res.result.getD "Sorry, I couldn't find an answer."
    let cypher_query := res.intermediate_query.getD "No Cypher query generated."
    let completion_tokens := tokenCount answer
    some
      { answer := answer
        cypher_query := cypher_query
        prompt_tokens := prompt_tokens
        completion_tokens := completion_tokens
        total_tokens := prompt_tokens + completion_tokens
        latency := w.end_time - w.start_time
        cost := costOf prompt_tokens completion_tokens }
  else none

/-- External calls observable during one handler run. -/
inductive ExtCall where
  | tokenizerEncode (text : String)
  | llmInvoke (prompt : String)
  | graphQuery (cypher : String)
deriving DecidableEq

/-- Modelled from the spec: `GraphCypherQAChain.invoke` (an external LangChain
call, not in the repository) issues a language-model call to synthesize a
Cypher query, runs that query on the graph store, and issues a second
language-model call to compose the answer. -/
def chainCalls (w : World) (user_question : String) : List ExtCall :=
  [ExtCall.llmInvoke user_question,
   ExtCall.graphQuery ((w.chain user_question).intermediate_query.getD
     "No Cypher query generated."),
   ExtCall.llmInvoke user_question]

/-- The calls one button press performs: nothing when the guard rejects,
otherwise the prompt-side tokenizer call, the chain invocation, and the
completion-side tokenizer call. -/
def askTrace (w : World) (user_question : String) : List ExtCall :=
  if w.buttonPressed && user_question != "" then
    ExtCall.tokenizerEncode user_question :: chainCalls w user_question ++
      [ExtCall.tokenizerEncode
        ((w.chain user_question).result.getD "Sorry, I couldn't find an answer.")]
  else []

/-! ## SageMaker content handler (app.py) -/

structure GenParams where
  max_new_tokens : Nat
  top_p : ℚ
  temperature : ℚ
deriving DecidableEq

/-- `model_kwargs={"max_new_tokens": 512, "top_p": 0.9, "temperature": 0.1}`
fixed at endpoint construction and passed into every request. -/
def modelKwargs : GenParams := ⟨512, 0.9, 0.1⟩

structure SMRequest where
  inputs : String
  parameters : GenParams
deriving DecidableEq

/-- `ContentHandler.transform_input`: wraps the prompt in Mistral instruction
markers and attaches the endpoint's `model_kwargs` as the parameters field. -/
def transform_input (prompt : String) (model_kwargs : GenParams) : SMRequest :=
  ⟨"<s>[INST] " ++ prompt ++ " [/INST]", model_kwargs⟩

def lookupField (k : String) : List (String × String) → Option String
  | [] => none
  | (k1, v) :: rest => if k1 = k then some v else lookupField k rest

/-- `ContentHandler.transform_output`: parse the response JSON object and
return its `generated_text` field (`KeyError`, i.e. `none`, if absent). -/
def transform_output (response_json : List (String × String)) : Option String :=
  lookupField "generated_text" response_json

/-- One language-model invocation as the pipeline performs it: build the
request with the fixed `model_kwargs`, send it, extract `generated_text`. -/
def sagemakerInvoke (endpointRespond : SMRequest → List (String × String))
    (prompt : String) : Option String :=
  transform_output (endpointRespond (transform_input prompt modelKwargs))

/-! ## Basic lemmas about the graph primitives -/

theorem findProps_append_of_some {k : NodeKey} {l m : List (NodeKey × Props)} {p : Props}
    (h : findProps k l = some p) : findProps k (l ++ m) = some p := by
  induction l with
  | nil => simp [findProps] at h
  | cons kp t ih =>
    obtain ⟨k1, q⟩ := kp
    simp only [findProps, List.cons_append] at h ⊢
    by_cases hk : k1 = k
    · simpa [hk] using h
    · rw [if_neg hk] at h ⊢
      exact ih h

theorem findProps_append_of_none {k : NodeKey} {l m : List (NodeKey × Props)}
    (h : findProps k l = none) : findProps k (l ++ m) = findProps k m := by
  induction l with
  | nil => rfl
  | cons kp t ih =>
    obtain ⟨k1, q⟩ := kp
    simp only [findProps, List.cons_append] at h ⊢
    by_cases hk : k1 = k
    · simp [hk] at h
    · rw [if_neg hk] at h ⊢
      exact ih h

theorem rels_mergeNode (k : NodeKey) (g : Graph) : (mergeNode k g).rels = g.rels := by
  unfold mergeNode
  split <;> rfl

theorem rels_updateProps (k : NodeKey) (f : Props → Props) (g : Graph) :
    (updateProps k f g).rels = g.rels := rfl

theorem nodes_mergeRel (x : GraphRel) (g : Graph) : (mergeRel x g).nodes = g.nodes := by
  unfold mergeRel
  split <;> rfl

theorem mem_rels_mergeRel {x : GraphRel} {g : Graph} (y : GraphRel) (h : x ∈ g.rels) :
    x ∈ (mergeRel y g).rels := by
  unfold mergeRel
  split
  · exact h
  · exact List.mem_append_left _ h

theorem self_mem_rels_mergeRel (x : GraphRel) (g : Graph) : x ∈ (mergeRel x g).rels := by
  unfold mergeRel
  split
  · assumption
  · exact List.mem_append_right _ (List.mem_singleton.mpr rfl)

theorem findProps_mergeNode_of_some {k : NodeKey} {g : Graph} {p : Props} (k1 : NodeKey)
    (h : findProps k g.nodes = some p) : findProps k (mergeNode k1 g).nodes = some p := by
  unfold mergeNode
  split
  · exact h
  · exact findProps_append_of_some h

theorem hasNode_mergeNode {k : NodeKey} {g : Graph} (k1 : NodeKey) (h : hasNode k g = true) :
    hasNode k (mergeNode k1 g) = true := by
  unfold hasNode at h ⊢
  obtain ⟨p, hp⟩ := Option.isSome_iff_exists.mp h
  rw [findProps_mergeNode_of_some k1 hp]
  rfl

theorem hasNode_mergeNode_self (k : NodeKey) (g : Graph) : hasNode k (mergeNode k g) = true := by
  unfold mergeNode
  split
  · assumption
  · show (findProps k (g.nodes ++ [(k, Props.empty)])).isSome = true
    rcases hf : findProps k g.nodes with _ | p
    · rw [findProps_append_of_none hf]
      simp [findProps]
    · rw [findProps_append_of_some hf]
      rfl

theorem findProps_mergeNode_ne {k k1 : NodeKey} (g : Graph) (h : k1 ≠ k) :
    findProps k (mergeNode k1 g).nodes = findProps k g.nodes := by
  unfold mergeNode
  split
  · rfl
  · show findProps k (g.nodes ++ [(k1, Props.empty)]) = findProps k g.nodes
    rcases hf : findProps k g.nodes with _ | p
    · rw [findProps_append_of_none hf]
      simp [findProps, h]
    · exact findProps_append_of_some hf

theorem findProps_updateProps_ne {k k1 : NodeKey} (f : Props → Props) (g : Graph) (h : k1 ≠ k) :
    findProps k (updateProps k1 f g).nodes = findProps k g.nodes := by
  show findProps k (g.nodes.map _) = findProps k g.nodes
  induction g.nodes with
  | nil => rfl
  | cons kp t ih =>
    obtain ⟨k2, q⟩ := kp
    simp only [List.map_cons, findProps]
    by_cases hk : k2 = k
    · rw [if_pos hk, if_pos hk, if_neg (fun h2 : k2 = k1 => h (h2 ▸ hk))]
    · rw [if_neg hk, if_neg hk]
      exact ih

theorem findProps_updateProps_self (k : NodeKey) (f : Props → Props) (g : Graph) :
    findProps k (updateProps k f g).nodes = (findProps k g.nodes).map f := by
  show findProps k (g.nodes.map _) = (findProps k g.nodes).map f
  induction g.nodes with
  | nil => rfl
  | cons kp t ih =>
    obtain ⟨k2, q⟩ := kp
    simp only [List.map_cons, findProps]
    by_cases hk : k2 = k
    · rw [if_pos hk, if_pos hk, if_pos hk]
      rfl
    · rw [if_neg hk, if_neg hk]
      exact ih

theorem hasNode_updateProps (k k1 : NodeKey) (f : Props → Props) (g : Graph) :
    hasNode k (updateProps k1 f g) = hasNode k g := by
  by_cases h : k1 = k
  · subst h
    unfold hasNode
    rw [findProps_updateProps_self]
    rcases findProps k1 g.nodes with _ | p <;> rfl
  · unfold hasNode
    rw [findProps_updateProps_ne f g h]

theorem hasNode_mergeRel (k : NodeKey) (x : GraphRel) (g : Graph) :
    hasNode k (mergeRel x g) = hasNode k g := by
  unfold hasNode
  rw [nodes_mergeRel]

theorem findProps_isSome_mem {k : NodeKey} {l : List (NodeKey × Props)}
    (h : (findProps k l).isSome = true) : ∃ p, (k, p) ∈ l := by
  induction l with
  | nil => simp [findProps] at h
  | cons kp t ih =>
    obtain ⟨k1, q⟩ := kp
    by_cases hk : k1 = k
    · subst hk
      exact ⟨q, List.mem_cons_self _ _⟩
    · simp only [findProps, if_neg hk] at h
      obtain ⟨p, hp⟩ := ih h
      exact ⟨p, List.mem_cons_of_mem _ hp⟩

/-! ## Fold helpers -/

theorem foldl_preserve {α β : Type _} (P : α → Prop) (f : α → β → α) :
    ∀ (l : List β) (a : α), (∀ x b, b ∈ l → P x → P (f x b)) → P a → P (l.foldl f a)
  | [], _, _, h0 => h0
  | b :: t, a, hstep, h0 =>
    foldl_preserve P f t (f a b)
      (fun x b1 hb1 => hstep x b1 (List.mem_cons_of_mem _ hb1))
      (hstep a b (List.mem_cons_self _ _) h0)

theorem foldl_fix {α β : Type _} (f : α → β → α) :
    ∀ (l : List β) (a : α), (∀ b ∈ l, f a b = a) → l.foldl f a = a
  | [], _, _ => rfl
  | b :: t, a, h => by
    rw [List.foldl_cons, h b (List.mem_cons_self _ _)]
    exact foldl_fix f t a (fun b1 hb1 => h b1 (List.mem_cons_of_mem _ hb1))

theorem map_eq_self_of {α : Type _} {f : α → α} :
    ∀ {l : List α}, (∀ x ∈ l, f x = x) → l.map f = l
  | [], _ => rfl
  | x :: t, h => by
    rw [List.map_cons, h x (List.mem_cons_self _ _),
      map_eq_self_of (fun y hy => h y (List.mem_cons_of_mem _ hy))]

/-! ## Identity lemmas: replaying an already-absorbed operation -/

theorem mergeNode_eq_self {k : NodeKey} {g : Graph} (h : hasNode k g = true) :
    mergeNode k g = g := by
  unfold mergeNode
  rw [if_pos h]

theorem mergeRel_eq_self {x : GraphRel} {g : Graph} (h : x ∈ g.rels) :
    mergeRel x g = g := by
  unfold mergeRel
  rw [if_pos h]

/-- Every node entry whose key is `k` satisfies `P` on its properties. -/
def AllKeyProp (k : NodeKey) (P : Props → Prop) (g : Graph) : Prop :=
  ∀ kp, kp ∈ g.nodes → kp.1 = k → P kp.2

theorem updateProps_eq_self {k : NodeKey} {f : Props → Props} {g : Graph}
    (h : AllKeyProp k (fun p => f p = p) g) : updateProps k f g = g := by
  unfold updateProps
  obtain ⟨nodes, rels⟩ := g
  simp only [Graph.mk.injEq, and_true]
  apply map_eq_self_of
  intro kp hm
  by_cases hk : kp.1 = k
  · rw [if_pos hk, h kp hm hk]
  · rw [if_neg hk]

theorem allKeyProp_mergeNode_ne {k k1 : NodeKey} {P : Props → Prop} {g : Graph}
    (hne : k1 ≠ k) (h : AllKeyProp k P g) : AllKeyProp k P (mergeNode k1 g) := by
  unfold mergeNode
  split
  · exact h
  · intro kp hm hk
    rcases List.mem_append.mp hm with hm1 | hm1
    · exact h kp hm1 hk
    · rw [List.mem_singleton.mp hm1] at hk
      exact absurd hk hne

theorem allKeyProp_mergeNode_hasNode {k : NodeKey} {P : Props → Prop} {g : Graph} (k1 : NodeKey)
    (hk : hasNode k g = true) (h : AllKeyProp k P g) : AllKeyProp k P (mergeNode k1 g) := by
  by_cases hne : k1 = k
  · subst hne
    rw [mergeNode_eq_self hk]
    exact h
  · exact allKeyProp_mergeNode_ne hne h

theorem allKeyProp_updateProps_ne {k k1 : NodeKey} {P : Props → Prop} {f : Props → Props}
    {g : Graph} (hne : k1 ≠ k) (h : AllKeyProp k P g) : AllKeyProp k P (updateProps k1 f g) := by
  intro kp hm hk
  obtain ⟨kp0, hm0, heq⟩ := List.mem_map.mp hm
  rw [← heq] at hk ⊢
  simp only at hk ⊢
  rw [if_neg (fun h0 : kp0.1 = k1 => hne (h0 ▸ hk))]
  exact h kp0 hm0 hk

theorem allKeyProp_updateProps_self {k : NodeKey} {P : Props → Prop} {f : Props → Props}
    {g : Graph} (hf : ∀ p, P (f p)) : AllKeyProp k P (updateProps k f g) := by
  intro kp hm hk
  obtain ⟨kp0, hm0, heq⟩ := List.mem_map.mp hm
  rw [← heq] at hk ⊢
  simp only at hk ⊢
  rw [if_pos hk]
  exact hf _

theorem allKeyProp_mergeRel {k : NodeKey} {P : Props → Prop} {g : Graph} (x : GraphRel)
    (h : AllKeyProp k P g) : AllKeyProp k P (mergeRel x g) := by
  intro kp hm hk
  rw [nodes_mergeRel] at hm
  exact h kp hm hk

theorem allKeyProp_of_nodes_eq {k : NodeKey} {P : Props → Prop} {g g1 : Graph}
    (he : g1.nodes = g.nodes) (h : AllKeyProp k P g) : AllKeyProp k P g1 := by
  intro kp hm hk
  rw [he] at hm
  exact h kp hm hk

/-! ## Property-update identities on `Props` -/

theorem Props.set_name_eq_self {p : Props} {v : String} (h : p.name = some v) :
    { p with name := some v } = p := by
  obtain ⟨a, b, c, d⟩ := p
  simp only at h
  rw [h]

theorem Props.set_name_region_eq_self {p : Props} {v w : String}
    (h1 : p.name = some v) (h2 : p.region = some w) :
    { p with name := some v, region := some w } = p := by
  obtain ⟨a, b, c, d⟩ := p
  simp only at h1 h2
  rw [h1, h2]

theorem Props.set_status_standard_eq_self {p : Props} {v w : String}
    (h1 : p.status = some v) (h2 : p.standard = some w) :
    { p with status := some v, standard := some w } = p := by
  obtain ⟨a, b, c, d⟩ := p
  simp only at h1 h2
  rw [h1, h2]

/-! ## Frame lemmas for the per-row effects -/

theorem nodes_applySupplyChainRow (g : Graph) (r : SupplyChainRow) :
    (applySupplyChainRow g r).nodes = g.nodes := by
  unfold applySupplyChainRow
  split
  · rw [nodes_mergeRel]
  · rfl

theorem hasNode_applySupplyChainRow (k : NodeKey) (g : Graph) (r : SupplyChainRow) :
    hasNode k (applySupplyChainRow g r) = hasNode k g := by
  unfold hasNode
  rw [nodes_applySupplyChainRow]

theorem mem_rels_applySupplyChainRow {x : GraphRel} {g : Graph} (r : SupplyChainRow)
    (h : x ∈ g.rels) : x ∈ (applySupplyChainRow g r).rels := by
  unfold applySupplyChainRow
  split
  · exact mem_rels_mergeRel _ h
  · exact h

theorem rels_applySupplierRow (g : Graph) (r : SupplierRow) :
    (applySupplierRow g r).rels = g.rels := by
  unfold applySupplierRow
  rw [rels_updateProps, rels_mergeNode]

theorem findProps_applySupplierRow_ne {k : NodeKey} (g : Graph) (r : SupplierRow)
    (hne : NodeKey.supplier r.supplier_id ≠ k) :
    findProps k (applySupplierRow g r).nodes = findProps k g.nodes := by
  unfold applySupplierRow
  rw [findProps_updateProps_ne _ _ hne, findProps_mergeNode_ne _ hne]

theorem hasNode_applySupplierRow_ne {k : NodeKey} (g : Graph) (r : SupplierRow)
    (hne : NodeKey.supplier r.supplier_id ≠ k) :
    hasNode k (applySupplierRow g r) = hasNode k g := by
  unfold hasNode
  rw [findProps_applySupplierRow_ne g r hne]

theorem hasNode_applySupplierRow {k : NodeKey} {g : Graph} (r : SupplierRow)
    (h : hasNode k g = true) : hasNode k (applySupplierRow g r) = true := by
  unfold applySupplierRow
  rw [hasNode_updateProps]
  exact hasNode_mergeNode _ h

theorem findProps_applyComplianceRow_ne {k : NodeKey} (g : Graph) (r : ComplianceRow)
    (hne : NodeKey.complianceDoc r.doc_id ≠ k) :
    findProps k (applyComplianceRow g r).nodes = findProps k g.nodes := by
  unfold applyComplianceRow
  split
  · rw [nodes_mergeRel, findProps_updateProps_ne _ _ hne, findProps_mergeNode_ne _ hne]
  · rfl

theorem hasNode_applyComplianceRow_ne {k : NodeKey} (g : Graph) (r : ComplianceRow)
    (hne : NodeKey.complianceDoc r.doc_id ≠ k) :
    hasNode k (applyComplianceRow g r) = hasNode k g := by
  unfold hasNode
  rw [findProps_applyComplianceRow_ne g r hne]

theorem mem_rels_applyComplianceRow {x : GraphRel} {g : Graph} (r : ComplianceRow)
    (h : x ∈ g.rels) : x ∈ (applyComplianceRow g r).rels := by
  unfold applyComplianceRow
  split
  · apply mem_rels_mergeRel
    rw [rels_updateProps, rels_mergeNode]
    exact h
  · exact h

theorem allKeyProp_applyComplianceRow_ne {k : NodeKey} {P : Props → Prop} {g : Graph}
    (r : ComplianceRow) (hne : NodeKey.complianceDoc r.doc_id ≠ k)
    (h : AllKeyProp k P g) : AllKeyProp k P (applyComplianceRow g r) := by
  unfold applyComplianceRow
  split
  · exact allKeyProp_mergeRel _ (allKeyProp_updateProps_ne hne (allKeyProp_mergeNode_ne hne h))
  · exact h

theorem hasNode_applyPartRow {k : NodeKey} {g : Graph} (r : PartRow)
    (h : hasNode k g = true) : hasNode k (applyPartRow g r) = true := by
  unfold applyPartRow
  rw [hasNode_mergeRel]
  apply hasNode_mergeNode
  rw [hasNode_updateProps]
  exact hasNode_mergeNode _ h

theorem mem_rels_applyPartRow {x : GraphRel} {g : Graph} (r : PartRow)
    (h : x ∈ g.rels) : x ∈ (applyPartRow g r).rels := by
  unfold applyPartRow
  apply mem_rels_mergeRel
  rw [rels_mergeNode, rels_updateProps, rels_mergeNode]
  exact h

/-! ## Absorption predicates: one row's effects are already present -/

/-- The graph already holds everything one `parts_query` row produces. -/
def PartRowDone (r : PartRow) (g : Graph) : Prop :=
  hasNode (NodeKey.part r.part_id) g = true ∧
  AllKeyProp (NodeKey.part r.part_id) (fun p => p.name = some r.part_name) g ∧
  hasNode (NodeKey.productLine r.product_line) g = true ∧
  (⟨RelType.CONTAINS_PART, NodeKey.productLine r.product_line, NodeKey.part r.part_id⟩ :
    GraphRel) ∈ g.rels

/-- The graph already holds everything one `suppliers_query` row produces. -/
def SupplierRowDone (r : SupplierRow) (g : Graph) : Prop :=
  hasNode (NodeKey.supplier r.supplier_id) g = true ∧
  AllKeyProp (NodeKey.supplier r.supplier_id)
    (fun p => p.name = some r.supplier_name ∧ p.region = some r.region) g

/-- The graph already holds everything one `supply_chain_query` row produces. -/
def SupplyChainRowDone (r : SupplyChainRow) (g : Graph) : Prop :=
  hasNode (NodeKey.part r.part_id) g = true →
    hasNode (NodeKey.supplier r.supplier_id) g = true →
      (⟨RelType.SUPPLIED_BY, NodeKey.part r.part_id, NodeKey.supplier r.supplier_id⟩ :
        GraphRel) ∈ g.rels

/-- The graph already holds everything one `compliance_query` row produces. -/
def ComplianceRowDone (r : ComplianceRow) (g : Graph) : Prop :=
  hasNode (NodeKey.part r.part_id) g = true →
    (hasNode (NodeKey.complianceDoc r.doc_id) g = true ∧
     AllKeyProp (NodeKey.complianceDoc r.doc_id)
       (fun p => p.status = some r.status ∧ p.standard = some r.standard) g ∧
     (⟨RelType.HAS_COMPLIANCE, NodeKey.part r.part_id, NodeKey.complianceDoc r.doc_id⟩ :
       GraphRel) ∈ g.rels)

/-! ## Replaying an absorbed row is the identity -/

theorem applyPartRow_of_done {r : PartRow} {g : Graph} (h : PartRowDone r g) :
    applyPartRow g r = g := by
  obtain ⟨h1, h2, h3, h4⟩ := h
  unfold applyPartRow
  rw [mergeNode_eq_self h1,
    updateProps_eq_self (fun kp hm hk => Props.set_name_eq_self (h2 kp hm hk)),
    mergeNode_eq_self h3, mergeRel_eq_self h4]

theorem applySupplierRow_of_done {r : SupplierRow} {g : Graph} (h : SupplierRowDone r g) :
    applySupplierRow g r = g := by
  obtain ⟨h1, h2⟩ := h
  unfold applySupplierRow
  rw [mergeNode_eq_self h1,
    updateProps_eq_self
      (fun kp hm hk => Props.set_name_region_eq_self (h2 kp hm hk).1 (h2 kp hm hk).2)]

theorem applySupplyChainRow_of_done {r : SupplyChainRow} {g : Graph}
    (h : SupplyChainRowDone r g) : applySupplyChainRow g r = g := by
  unfold applySupplyChainRow
  by_cases hc : (hasNode (NodeKey.part r.part_id) g &&
      hasNode (NodeKey.supplier r.supplier_id) g) = true
  · rw [if_pos hc]
    rw [Bool.and_eq_true] at hc
    exact mergeRel_eq_self (h hc.1 hc.2)
  · rw [if_neg hc]

theorem applyComplianceRow_of_done {r : ComplianceRow} {g : Graph}
    (h : ComplianceRowDone r g) : applyComplianceRow g r = g := by
  unfold applyComplianceRow
  by_cases hp : hasNode (NodeKey.part r.part_id) g = true
  · obtain ⟨hd, ha, hr⟩ := h hp
    rw [if_pos hp, mergeNode_eq_self hd,
      updateProps_eq_self
        (fun kp hm hk => Props.set_status_standard_eq_self (ha kp hm hk).1 (ha kp hm hk).2),
      mergeRel_eq_self hr]
  · rw [if_neg hp]

/-! ## Establishing absorption at a row's own stage -/

theorem partRowDone_self (g : Graph) (r : PartRow) : PartRowDone r (applyPartRow g r) := by
  have e2 : hasNode (NodeKey.part r.part_id)
      (updateProps (NodeKey.part r.part_id) (fun p => { p with name := some r.part_name })
        (mergeNode (NodeKey.part r.part_id) g)) = true := by
    rw [hasNode_updateProps]
    exact hasNode_mergeNode_self _ _
  unfold applyPartRow
  refine ⟨?_, ?_, ?_, ?_⟩
  · rw [hasNode_mergeRel]
    exact hasNode_mergeNode _ e2
  · exact allKeyProp_mergeRel _
      (allKeyProp_mergeNode_hasNode _ e2 (allKeyProp_updateProps_self (fun p => rfl)))
  · rw [hasNode_mergeRel]
    exact hasNode_mergeNode_self _ _
  · exact self_mem_rels_mergeRel _ _

theorem supplierRowDone_self (g : Graph) (r : SupplierRow) :
    SupplierRowDone r (applySupplierRow g r) := by
  unfold applySupplierRow
  refine ⟨?_, ?_⟩
  · rw [hasNode_updateProps]
    exact hasNode_mergeNode_self _ _
  · exact allKeyProp_updateProps_self (fun p => ⟨rfl, rfl⟩)

theorem supplyChainRowDone_self (g : Graph) (r : SupplyChainRow) :
    SupplyChainRowDone r (applySupplyChainRow g r) := by
  unfold applySupplyChainRow
  by_cases hc : (hasNode (NodeKey.part r.part_id) g &&
      hasNode (NodeKey.supplier r.supplier_id) g) = true
  · rw [if_pos hc]
    intro _ _
    exact self_mem_rels_mergeRel _ _
  · rw [if_neg hc]
    intro hp hs
    rw [Bool.and_eq_true] at hc
    exact absurd ⟨hp, hs⟩ hc

theorem complianceRowDone_self (g : Graph) (r : ComplianceRow) :
    ComplianceRowDone r (applyComplianceRow g r) := by
  unfold applyComplianceRow
  by_cases hp : hasNode (NodeKey.part r.part_id) g = true
  · rw [if_pos hp]
    intro _
    refine ⟨?_, ?_, ?_⟩
    · rw [hasNode_mergeRel, hasNode_updateProps]
      exact hasNode_mergeNode_self _ _
    · exact allKeyProp_mergeRel _ (allKeyProp_updateProps_self (fun p => ⟨rfl, rfl⟩))
    · exact self_mem_rels_mergeRel _ _
  · rw [if_neg hp]
    intro hcontr
    exact absurd hcontr hp

/-! ## Key disjointness helpers -/

theorem part_key_ne {a b : String} (h : a ≠ b) : NodeKey.part a ≠ NodeKey.part b :=
  fun hc => h (NodeKey.part.inj hc)

theorem supplier_key_ne {a b : String} (h : a ≠ b) :
    NodeKey.supplier a ≠ NodeKey.supplier b :=
  fun hc => h (NodeKey.supplier.inj hc)

theorem complianceDoc_key_ne {a b : String} (h : a ≠ b) :
    NodeKey.complianceDoc a ≠ NodeKey.complianceDoc b :=
  fun hc => h (NodeKey.complianceDoc.inj hc)

/-! ## Absorption is preserved by later rows and later stages -/

theorem partRowDone_applyPartRow_ne {r r1 : PartRow} {g : Graph}
    (hne : r1.part_id ≠ r.part_id) (h : PartRowDone r g) :
    PartRowDone r (applyPartRow g r1) := by
  obtain ⟨h1, h2, h3, h4⟩ := h
  have he : hasNode (NodeKey.part r.part_id)
      (updateProps (NodeKey.part r1.part_id) (fun p => { p with name := some r1.part_name })
        (mergeNode (NodeKey.part r1.part_id) g)) = true := by
    rw [hasNode_updateProps]
    exact hasNode_mergeNode _ h1
  unfold applyPartRow
  refine ⟨?_, ?_, ?_, ?_⟩
  · rw [hasNode_mergeRel]
    exact hasNode_mergeNode _ he
  · exact allKeyProp_mergeRel _
      (allKeyProp_mergeNode_hasNode _ he
        (allKeyProp_updateProps_ne (part_key_ne hne)
          (allKeyProp_mergeNode_hasNode _ h1 h2)))
  · rw [hasNode_mergeRel]
    apply hasNode_mergeNode
    rw [hasNode_updateProps]
    exact hasNode_mergeNode _ h3
  · apply mem_rels_mergeRel
    rw [rels_mergeNode, rels_updateProps, rels_mergeNode]
    exact h4

theorem partRowDone_applySupplierRow {r : PartRow} {r1 : SupplierRow} {g : Graph}
    (h : PartRowDone r g) : PartRowDone r (applySupplierRow g r1) := by
  obtain ⟨h1, h2, h3, h4⟩ := h
  refine ⟨?_, ?_, ?_, ?_⟩
  · rw [hasNode_applySupplierRow_ne g r1 (fun hc => NodeKey.noConfusion hc)]
    exact h1
  · exact allKeyProp_updateProps_ne (fun hc => NodeKey.noConfusion hc)
      (allKeyProp_mergeNode_ne (fun hc => NodeKey.noConfusion hc) h2)
  · rw [hasNode_applySupplierRow_ne g r1 (fun hc => NodeKey.noConfusion hc)]
    exact h3
  · rw [rels_applySupplierRow]
    exact h4

theorem partRowDone_applySupplyChainRow {r : PartRow} {r1 : SupplyChainRow} {g : Graph}
    (h : PartRowDone r g) : PartRowDone r (applySupplyChainRow g r1) := by
  obtain ⟨h1, h2, h3, h4⟩ := h
  refine ⟨?_, ?_, ?_, ?_⟩
  · rw [hasNode_applySupplyChainRow]
    exact h1
  · exact allKeyProp_of_nodes_eq (nodes_applySupplyChainRow g r1) h2
  · rw [hasNode_applySupplyChainRow]
    exact h3
  · exact mem_rels_applySupplyChainRow r1 h4

theorem partRowDone_applyComplianceRow {r : PartRow} {r1 : ComplianceRow} {g : Graph}
    (h : PartRowDone r g) : PartRowDone r (applyComplianceRow g r1) := by
  obtain ⟨h1, h2, h3, h4⟩ := h
  refine ⟨?_, ?_, ?_, ?_⟩
  · rw [hasNode_applyComplianceRow_ne g r1 (fun hc => NodeKey.noConfusion hc)]
    exact h1
  · exact allKeyProp_applyComplianceRow_ne r1 (fun hc => NodeKey.noConfusion hc) h2
  · rw [hasNode_applyComplianceRow_ne g r1 (fun hc => NodeKey.noConfusion hc)]
    exact h3
  · exact mem_rels_applyComplianceRow r1 h4

theorem supplierRowDone_applySupplierRow_ne {r r1 : SupplierRow} {g : Graph}
    (hne : r1.supplier_id ≠ r.supplier_id) (h : SupplierRowDone r g) :
    SupplierRowDone r (applySupplierRow g r1) := by
  obtain ⟨h1, h2⟩ := h
  refine ⟨?_, ?_⟩
  · unfold applySupplierRow
    rw [hasNode_updateProps]
    exact hasNode_mergeNode _ h1
  · exact allKeyProp_updateProps_ne (supplier_key_ne hne)
      (allKeyProp_mergeNode_hasNode _ h1 h2)

theorem supplierRowDone_applySupplyChainRow {r : SupplierRow} {r1 : SupplyChainRow} {g : Graph}
    (h : SupplierRowDone r g) : SupplierRowDone r (applySupplyChainRow g r1) := by
  obtain ⟨h1, h2⟩ := h
  refine ⟨?_, ?_⟩
  · rw [hasNode_applySupplyChainRow]
    exact h1
  · exact allKeyProp_of_nodes_eq (nodes_applySupplyChainRow g r1) h2

theorem supplierRowDone_applyComplianceRow {r : SupplierRow} {r1 : ComplianceRow} {g : Graph}
    (h : SupplierRowDone r g) : SupplierRowDone r (applyComplianceRow g r1) := by
  obtain ⟨h1, h2⟩ := h
  refine ⟨?_, ?_⟩
  · rw [hasNode_applyComplianceRow_ne g r1 (fun hc => NodeKey.noConfusion hc)]
    exact h1
  · exact allKeyProp_applyComplianceRow_ne r1 (fun hc => NodeKey.noConfusion hc) h2

theorem supplyChainRowDone_applySupplyChainRow {r r1 : SupplyChainRow} {g : Graph}
    (h : SupplyChainRowDone r g) : SupplyChainRowDone r (applySupplyChainRow g r1) := by
  intro hp hs
  rw [hasNode_applySupplyChainRow] at hp hs
  exact mem_rels_applySupplyChainRow r1 (h hp hs)

theorem supplyChainRowDone_applyComplianceRow {r : SupplyChainRow} {r1 : ComplianceRow}
    {g : Graph} (h : SupplyChainRowDone r g) :
    SupplyChainRowDone r (applyComplianceRow g r1) := by
  intro hp hs
  rw [hasNode_applyComplianceRow_ne g r1 (fun hc => NodeKey.noConfusion hc)] at hp
  rw [hasNode_applyComplianceRow_ne g r1 (fun hc => NodeKey.noConfusion hc)] at hs
  exact mem_rels_applyComplianceRow r1 (h hp hs)

theorem complianceRowDone_applyComplianceRow_ne {r r1 : ComplianceRow} {g : Graph}
    (hne : r1.doc_id ≠ r.doc_id) (h : ComplianceRowDone r g) :
    ComplianceRowDone r (applyComplianceRow g r1) := by
  intro hp
  rw [hasNode_applyComplianceRow_ne g r1 (fun hc => NodeKey.noConfusion hc)] at hp
  obtain ⟨hd, ha, hr⟩ := h hp
  refine ⟨?_, ?_, ?_⟩
  · rw [hasNode_applyComplianceRow_ne g r1 (complianceDoc_key_ne hne)]
    exact hd
  · exact allKeyProp_applyComplianceRow_ne r1 (complianceDoc_key_ne hne) ha
  · exact mem_rels_applyComplianceRow r1 hr

/-! ## Absorption after a whole stage -/

theorem partRowDone_loadParts (rows : List PartRow) :
    ∀ (g : Graph) (r : PartRow), (rows.map PartRow.part_id).Nodup → r ∈ rows →
      PartRowDone r (loadParts rows g) := by
  induction rows with
  | nil =>
    intro g r _ hr
    cases hr
  | cons r0 t ih =>
    intro g r hnd hr
    simp only [List.map_cons, List.nodup_cons] at hnd
    obtain ⟨hnotin, hndt⟩ := hnd
    show PartRowDone r (loadParts t (applyPartRow g r0))
    rcases List.mem_cons.mp hr with hr0 | hrt
    · subst hr0
      exact foldl_preserve (PartRowDone r) applyPartRow t (applyPartRow g r)
        (fun x b hb hx =>
          partRowDone_applyPartRow_ne
            (fun hc => hnotin (hc ▸ List.mem_map_of_mem PartRow.part_id hb)) hx)
        (partRowDone_self g r)
    · exact ih (applyPartRow g r0) r hndt hrt

theorem supplierRowDone_loadSuppliers (rows : List SupplierRow) :
    ∀ (g : Graph) (r : SupplierRow), (rows.map SupplierRow.supplier_id).Nodup → r ∈ rows →
      SupplierRowDone r (loadSuppliers rows g) := by
  induction rows with
  | nil =>
    intro g r _ hr
    cases hr
  | cons r0 t ih =>
    intro g r hnd hr
    simp only [List.map_cons, List.nodup_cons] at hnd
    obtain ⟨hnotin, hndt⟩ := hnd
    show SupplierRowDone r (loadSuppliers t (applySupplierRow g r0))
    rcases List.mem_cons.mp hr with hr0 | hrt
    · subst hr0
      exact foldl_preserve (SupplierRowDone r) applySupplierRow t (applySupplierRow g r)
        (fun x b hb hx =>
          supplierRowDone_applySupplierRow_ne
            (fun hc => hnotin (hc ▸ List.mem_map_of_mem SupplierRow.supplier_id hb)) hx)
        (supplierRowDone_self g r)
    · exact ih (applySupplierRow g r0) r hndt hrt

theorem supplyChainRowDone_loadSupplyChain (rows : List SupplyChainRow) :
    ∀ (g : Graph) (r : SupplyChainRow), r ∈ rows →
      SupplyChainRowDone r (loadSupplyChain rows g) := by
  induction rows with
  | nil =>
    intro g r hr
    cases hr
  | cons r0 t ih =>
    intro g r hr
    show SupplyChainRowDone r (loadSupplyChain t (applySupplyChainRow g r0))
    rcases List.mem_cons.mp hr with hr0 | hrt
    · subst hr0
      exact foldl_preserve (SupplyChainRowDone r) applySupplyChainRow t
        (applySupplyChainRow g r)
        (fun x b hb hx => supplyChainRowDone_applySupplyChainRow hx)
        (supplyChainRowDone_self g r)
    · exact ih (applySupplyChainRow g r0) r hrt

theorem complianceRowDone_loadCompliance (rows : List ComplianceRow) :
    ∀ (g : Graph) (r : ComplianceRow), (rows.map ComplianceRow.doc_id).Nodup → r ∈ rows →
      ComplianceRowDone r (loadCompliance rows g) := by
  induction rows with
  | nil =>
    intro g r _ hr
    cases hr
  | cons r0 t ih =>
    intro g r hnd hr
    simp only [List.map_cons, List.nodup_cons] at hnd
    obtain ⟨hnotin, hndt⟩ := hnd
    show ComplianceRowDone r (loadCompliance t (applyComplianceRow g r0))
    rcases List.mem_cons.mp hr with hr0 | hrt
    · subst hr0
      exact foldl_preserve (ComplianceRowDone r) applyComplianceRow t
        (applyComplianceRow g r)
        (fun x b hb hx =>
          complianceRowDone_applyComplianceRow_ne
            (fun hc => hnotin (hc ▸ List.mem_map_of_mem ComplianceRow.doc_id hb)) hx)
        (complianceRowDone_self g r)
    · exact ih (applyComplianceRow g r0) r hndt hrt

/-! ## Absorption after the whole batch load -/

theorem partRowDone_loadAll (p : List PartRow) (u : List SupplierRow)
    (s : List SupplyChainRow) (c : List ComplianceRow) (g : Graph) (r : PartRow)
    (hp : (p.map PartRow.part_id).Nodup) (hr : r ∈ p) :
    PartRowDone r (loadAll p u s c g) := by
  have d1 : PartRowDone r (loadParts p g) := partRowDone_loadParts p g r hp hr
  have d2 : PartRowDone r (loadSuppliers u (loadParts p g)) :=
    foldl_preserve _ _ u _ (fun x b _ hx => partRowDone_applySupplierRow hx) d1
  have d3 : PartRowDone r (loadSupplyChain s (loadSuppliers u (loadParts p g))) :=
    foldl_preserve _ _ s _ (fun x b _ hx => partRowDone_applySupplyChainRow hx) d2
  have d4 : PartRowDone r
      (loadCompliance c (loadSupplyChain s (loadSuppliers u (loadParts p g)))) :=
    foldl_preserve _ _ c _ (fun x b _ hx => partRowDone_applyComplianceRow hx) d3
  exact d4

theorem supplierRowDone_loadAll (p : List PartRow) (u : List SupplierRow)
    (s : List SupplyChainRow) (c : List ComplianceRow) (g : Graph) (r : SupplierRow)
    (hu : (u.map SupplierRow.supplier_id).Nodup) (hr : r ∈ u) :
    SupplierRowDone r (loadAll p u s c g) := by
  have d1 : SupplierRowDone r (loadSuppliers u (loadParts p g)) :=
    supplierRowDone_loadSuppliers u (loadParts p g) r hu hr
  have d2 : SupplierRowDone r (loadSupplyChain s (loadSuppliers u (loadParts p g))) :=
    foldl_preserve _ _ s _ (fun x b _ hx => supplierRowDone_applySupplyChainRow hx) d1
  have d3 : SupplierRowDone r
      (loadCompliance c (loadSupplyChain s (loadSuppliers u (loadParts p g)))) :=
    foldl_preserve _ _ c _ (fun x b _ hx => supplierRowDone_applyComplianceRow hx) d2
  exact d3

theorem supplyChainRowDone_loadAll (p : List PartRow) (u : List SupplierRow)
    (s : List SupplyChainRow) (c : List ComplianceRow) (g : Graph) (r : SupplyChainRow)
    (hr : r ∈ s) : SupplyChainRowDone r (loadAll p u s c g) := by
  have d1 : SupplyChainRowDone r (loadSupplyChain s (loadSuppliers u (loadParts p g))) :=
    supplyChainRowDone_loadSupplyChain s (loadSuppliers u (loadParts p g)) r hr
  have d2 : SupplyChainRowDone r
      (loadCompliance c (loadSupplyChain s (loadSuppliers u (loadParts p g)))) :=
    foldl_preserve _ _ c _ (fun x b _ hx => supplyChainRowDone_applyComplianceRow hx) d1
  exact d2

theorem complianceRowDone_loadAll (p : List PartRow) (u : List SupplierRow)
    (s : List SupplyChainRow) (c : List ComplianceRow) (g : Graph) (r : ComplianceRow)
    (hc : (c.map ComplianceRow.doc_id).Nodup) (hr : r ∈ c) :
    ComplianceRowDone r (loadAll p u s c g) :=
  complianceRowDone_loadCompliance c (loadSupplyChain s (loadSuppliers u (loadParts p g)))
    r hc hr

/-! ## Relationship-endpoint invariant machinery (for the ingestion run) -/

/-- Every `Part` node key in the graph comes from `pids` and every `Supplier`
node key from `sids`. -/
def SourcedNodes (pids sids : List String) (g : Graph) : Prop :=
  ∀ kp, kp ∈ g.nodes →
    (∀ pid, kp.1 = NodeKey.part pid → pid ∈ pids) ∧
    (∀ sid, kp.1 = NodeKey.supplier sid → sid ∈ sids)

/-- Every `SUPPLIED_BY` relationship runs from a present `Part` node to a
present `Supplier` node, and every `HAS_COMPLIANCE` relationship starts at a
present `Part` node. -/
def RelEndpointsOk (g : Graph) : Prop :=
  ∀ x, x ∈ g.rels →
    (x.relType = RelType.SUPPLIED_BY →
      ∃ pid sid, x.src = NodeKey.part pid ∧ x.dst = NodeKey.supplier sid ∧
        hasNode x.src g = true ∧ hasNode x.dst g = true) ∧
    (x.relType = RelType.HAS_COMPLIANCE →
      ∃ pid, x.src = NodeKey.part pid ∧ hasNode x.src g = true)

def IngestInv (pids sids : List String) (g : Graph) : Prop :=
  SourcedNodes pids sids g ∧ RelEndpointsOk g

theorem sourcedNodes_mergeNode {pids sids : List String} {k : NodeKey} {g : Graph}
    (hk : (∀ pid, k = NodeKey.part pid → pid ∈ pids) ∧
          (∀ sid, k = NodeKey.supplier sid → sid ∈ sids))
    (h : SourcedNodes pids sids g) : SourcedNodes pids sids (mergeNode k g) := by
  unfold mergeNode
  split
  · exact h
  · intro kp hm
    rcases List.mem_append.mp hm with hm1 | hm1
    · exact h kp hm1
    · rw [List.mem_singleton.mp hm1]
      exact hk

theorem sourcedNodes_updateProps {pids sids : List String} {k : NodeKey} {f : Props → Props}
    {g : Graph} (h : SourcedNodes pids sids g) : SourcedNodes pids sids (updateProps k f g) := by
  intro kp hm
  obtain ⟨kp0, hm0, heq⟩ := List.mem_map.mp hm
  rw [← heq]
  exact h kp0 hm0

theorem sourcedNodes_mergeRel {pids sids : List String} {x : GraphRel} {g : Graph}
    (h : SourcedNodes pids sids g) : SourcedNodes pids sids (mergeRel x g) := by
  intro kp hm
  rw [nodes_mergeRel] at hm
  exact h kp hm

theorem relEndpointsOk_mergeNode {k : NodeKey} {g : Graph} (h : RelEndpointsOk g) :
    RelEndpointsOk (mergeNode k g) := by
  intro x hm
  rw [rels_mergeNode] at hm
  obtain ⟨c1, c2⟩ := h x hm
  refine ⟨?_, ?_⟩
  · intro ht
    obtain ⟨pid, sid, e1, e2, e3, e4⟩ := c1 ht
    exact ⟨pid, sid, e1, e2, hasNode_mergeNode _ e3, hasNode_mergeNode _ e4⟩
  · intro ht
    obtain ⟨pid, e1, e3⟩ := c2 ht
    exact ⟨pid, e1, hasNode_mergeNode _ e3⟩

theorem relEndpointsOk_updateProps {k : NodeKey} {f : Props → Props} {g : Graph}
    (h : RelEndpointsOk g) : RelEndpointsOk (updateProps k f g) := by
  intro x hm
  rw [rels_updateProps] at hm
  obtain ⟨c1, c2⟩ := h x hm
  refine ⟨?_, ?_⟩
  · intro ht
    obtain ⟨pid, sid, e1, e2, e3, e4⟩ := c1 ht
    refine ⟨pid, sid, e1, e2, ?_, ?_⟩
    · rw [hasNode_updateProps]
      exact e3
    · rw [hasNode_updateProps]
      exact e4
  · intro ht
    obtain ⟨pid, e1, e3⟩ := c2 ht
    refine ⟨pid, e1, ?_⟩
    rw [hasNode_updateProps]
    exact e3

theorem relEndpointsOk_mergeRel {y : GraphRel} {g : Graph} (h : RelEndpointsOk g)
    (hnew : (y.relType = RelType.SUPPLIED_BY →
        ∃ pid sid, y.src = NodeKey.part pid ∧ y.dst = NodeKey.supplier sid ∧
          hasNode y.src g = true ∧ hasNode y.dst g = true) ∧
      (y.relType = RelType.HAS_COMPLIANCE →
        ∃ pid, y.src = NodeKey.part pid ∧ hasNode y.src g = true)) :
    RelEndpointsOk (mergeRel y g) := by
  intro x hm
  have hx : x ∈ g.rels ∨ x = y := by
    unfold mergeRel at hm
    split at hm
    · exact Or.inl hm
    · rcases List.mem_append.mp hm with h1 | h1
      · exact Or.inl h1
      · exact Or.inr (List.mem_singleton.mp h1)
  have hc : (x.relType = RelType.SUPPLIED_BY →
      ∃ pid sid, x.src = NodeKey.part pid ∧ x.dst = NodeKey.supplier sid ∧
        hasNode x.src g = true ∧ hasNode x.dst g = true) ∧
      (x.relType = RelType.HAS_COMPLIANCE →
        ∃ pid, x.src = NodeKey.part pid ∧ hasNode x.src g = true) := by
    rcases hx with h1 | h1
    · exact h x h1
    · subst h1
      exact hnew
  refine ⟨?_, ?_⟩
  · intro ht
    obtain ⟨pid, sid, e1, e2, e3, e4⟩ := hc.1 ht
    refine ⟨pid, sid, e1, e2, ?_, ?_⟩
    · rw [hasNode_mergeRel]
      exact e3
    · rw [hasNode_mergeRel]
      exact e4
  · intro ht
    obtain ⟨pid, e1, e3⟩ := hc.2 ht
    refine ⟨pid, e1, ?_⟩
    rw [hasNode_mergeRel]
    exact e3

theorem ingestInv_applyPartRow {pids sids : List String} {g : Graph} {r : PartRow}
    (hmem : r.part_id ∈ pids) (h : IngestInv pids sids g) :
    IngestInv pids sids (applyPartRow g r) := by
  obtain ⟨hs, hr⟩ := h
  have h1 : IngestInv pids sids (mergeNode (NodeKey.part r.part_id) g) :=
    ⟨sourcedNodes_mergeNode
        ⟨fun pid hpe => (NodeKey.part.inj hpe) ▸ hmem,
         fun sid hse => NodeKey.noConfusion hse⟩ hs,
      relEndpointsOk_mergeNode hr⟩
  have h2 : IngestInv pids sids
      (updateProps (NodeKey.part r.part_id) (fun p => { p with name := some r.part_name })
        (mergeNode (NodeKey.part r.part_id) g)) :=
    ⟨sourcedNodes_updateProps h1.1, relEndpointsOk_updateProps h1.2⟩
  have h3 : IngestInv pids sids
      (mergeNode (NodeKey.productLine r.product_line)
        (updateProps (NodeKey.part r.part_id) (fun p => { p with name := some r.part_name })
          (mergeNode (NodeKey.part r.part_id) g))) :=
    ⟨sourcedNodes_mergeNode
        ⟨fun pid hpe => NodeKey.noConfusion hpe, fun sid hse => NodeKey.noConfusion hse⟩ h2.1,
      relEndpointsOk_mergeNode h2.2⟩
  exact ⟨sourcedNodes_mergeRel h3.1,
    relEndpointsOk_mergeRel h3.2
      ⟨fun ht => RelType.noConfusion ht, fun ht => RelType.noConfusion ht⟩⟩

theorem ingestInv_applySupplierRow {pids sids : List String} {g : Graph} {r : SupplierRow}
    (hmem : r.supplier_id ∈ sids) (h : IngestInv pids sids g) :
    IngestInv pids sids (applySupplierRow g r) := by
  obtain ⟨hs, hr⟩ := h
  have h1 : IngestInv pids sids (mergeNode (NodeKey.supplier r.supplier_id) g) :=
    ⟨sourcedNodes_mergeNode
        ⟨fun pid hpe => NodeKey.noConfusion hpe,
         fun sid hse => (NodeKey.supplier.inj hse) ▸ hmem⟩ hs,
      relEndpointsOk_mergeNode hr⟩
  exact ⟨sourcedNodes_updateProps h1.1, relEndpointsOk_updateProps h1.2⟩

theorem ingestInv_applySupplyChainRow {pids sids : List String} {g : Graph}
    {r : SupplyChainRow} (h : IngestInv pids sids g) :
    IngestInv pids sids (applySupplyChainRow g r) := by
  unfold applySupplyChainRow
  by_cases hc : (hasNode (NodeKey.part r.part_id) g &&
      hasNode (NodeKey.supplier r.supplier_id) g) = true
  · rw [if_pos hc]
    rw [Bool.and_eq_true] at hc
    exact ⟨sourcedNodes_mergeRel h.1,
      relEndpointsOk_mergeRel h.2
        ⟨fun _ => ⟨r.part_id, r.supplier_id, rfl, rfl, hc.1, hc.2⟩,
         fun ht => RelType.noConfusion ht⟩⟩
  · rw [if_neg hc]
    exact h

theorem ingestInv_applyComplianceRow {pids sids : List String} {g : Graph}
    {r : ComplianceRow} (h : IngestInv pids sids g) :
    IngestInv pids sids (applyComplianceRow g r) := by
  unfold applyComplianceRow
  by_cases hp : hasNode (NodeKey.part r.part_id) g = true
  · rw [if_pos hp]
    have h1 : IngestInv pids sids (mergeNode (NodeKey.complianceDoc r.doc_id) g) :=
      ⟨sourcedNodes_mergeNode
          ⟨fun pid hpe => NodeKey.noConfusion hpe, fun sid hse => NodeKey.noConfusion hse⟩ h.1,
        relEndpointsOk_mergeNode h.2⟩
    have h2 : IngestInv pids sids
        (updateProps (NodeKey.complianceDoc r.doc_id)
          (fun p => { p with status := some r.status, standard := some r.standard })
          (mergeNode (NodeKey.complianceDoc r.doc_id) g)) :=
      ⟨sourcedNodes_updateProps h1.1, relEndpointsOk_updateProps h1.2⟩
    have he : hasNode (NodeKey.part r.part_id)
        (updateProps (NodeKey.complianceDoc r.doc_id)
          (fun p => { p with status := some r.status, standard := some r.standard })
          (mergeNode (NodeKey.complianceDoc r.doc_id) g)) = true := by
      rw [hasNode_updateProps]
      exact hasNode_mergeNode _ hp
    exact ⟨sourcedNodes_mergeRel h2.1,
      relEndpointsOk_mergeRel h2.2
        ⟨fun ht => RelType.noConfusion ht, fun _ => ⟨r.part_id, rfl, he⟩⟩⟩
  · rw [if_neg hp]
    exact h

theorem ingestInv_loadAll (p : List PartRow) (u : List SupplierRow)
    (s : List SupplyChainRow) (c : List ComplianceRow) :
    IngestInv (p.map PartRow.part_id) (u.map SupplierRow.supplier_id)
      (loadAll p u s c Graph.empty) := by
  have h0 : IngestInv (p.map PartRow.part_id) (u.map SupplierRow.supplier_id) Graph.empty :=
    ⟨fun kp hm => absurd hm (List.not_mem_nil _), fun x hm => absurd hm (List.not_mem_nil _)⟩
  have d1 : IngestInv (p.map PartRow.part_id) (u.map SupplierRow.supplier_id)
      (loadParts p Graph.empty) :=
    foldl_preserve _ _ p _
      (fun x b hb hx => ingestInv_applyPartRow (List.mem_map_of_mem PartRow.part_id hb) hx) h0
  have d2 : IngestInv (p.map PartRow.part_id) (u.map SupplierRow.supplier_id)
      (loadSuppliers u (loadParts p Graph.empty)) :=
    foldl_preserve _ _ u _
      (fun x b hb hx =>
        ingestInv_applySupplierRow (List.mem_map_of_mem SupplierRow.supplier_id hb) hx) d1
  have d3 : IngestInv (p.map PartRow.part_id) (u.map SupplierRow.supplier_id)
      (loadSupplyChain s (loadSuppliers u (loadParts p Graph.empty))) :=
    foldl_preserve _ _ s _ (fun x b _ hx => ingestInv_applySupplyChainRow hx) d2
  have d4 : IngestInv (p.map PartRow.part_id) (u.map SupplierRow.supplier_id)
      (loadCompliance c (loadSupplyChain s (loadSuppliers u (loadParts p Graph.empty)))) :=
    foldl_preserve _ _ c _ (fun x b _ hx => ingestInv_applyComplianceRow hx) d3
  exact d4

/-! ## Concrete example values used by witnesses -/

def exChain : String → ChainResult :=
  fun _ => ⟨some "xyz", some "MATCH (n) RETURN n"⟩

def exWorld : World := ⟨true, 0, 0, exChain⟩

def exWorld2 : World := ⟨true, 3, 7, fun _ => ⟨some "xyz", none⟩⟩

def exMetrics : Metrics := ⟨"xyz", "MATCH (n) RETURN n", 2, 3, 5, (0 : ℚ) - 0, costOf 2 3⟩

def exMetrics2 : Metrics :=
  ⟨"xyz", "No Cypher query generated.", 2, 3, 5, (7 : ℚ) - 3, costOf 2 3⟩

def exStore : String → Except String (List (List (String × String))) :=
  fun _ => Except.ok [[("name", "Acme")]]

def exParts : List PartRow := [⟨"p1", "Carbon Fiber Frame Assembly", "E-Bike Model X"⟩]

def exSuppliers : List SupplierRow := [⟨"s1", "Helios Energy", "Germany"⟩]

def exSupplyChain : List SupplyChainRow := [⟨"p1", "s1"⟩]

def exCompliance : List ComplianceRow := [⟨"p1", "d1", "Pass", "RoHS"⟩]

def exFS : FileSystem := ⟨some exParts, some exSuppliers, some exSupplyChain, some exCompliance⟩

def exFS0 : FileSystem := ⟨none, some exSuppliers, some exSupplyChain, some exCompliance⟩

def exDB : DB := ⟨⟨[(NodeKey.part "stale", Props.empty)], []⟩, []⟩

/-! ## Claim C1 -/

/-- C1 counterexample: the question `" "` consists only of whitespace yet is
non-empty, so the Python-truthiness guard `if st.button(...) and user_question:`
accepts it: the handler runs and the chain (hence the language model) is
invoked.  The claim that every whitespace-only question is rejected before any
external call is therefore false on the code. -/
theorem whitespace_question_invokes_chain :
    (∀ ch ∈ " ".data, ch.isWhitespace = true) ∧ " " ≠ "" ∧
    ExtCall.llmInvoke " " ∈ askTrace exWorld " " ∧ askHandler exWorld " " ≠ none := by
  decide

/-- C1 (amended): only the empty question is rejected before any external
call: for an empty question string the handler guard fails, so no tokenizer,
language-model or graph-store call is made and no metrics are produced.
Whitespace-only non-empty questions are not rejected (see the
counterexample). -/
theorem empty_question_no_external_call (w : World) (q : String) (h : q = "") :
    askTrace w q = [] ∧ askHandler w q = none := by
  subst h
  constructor
  · unfold askTrace
    simp
  · unfold askHandler
    simp

theorem empty_question_no_external_call_witness :
    askTrace exWorld "" = [] ∧ askHandler exWorld "" = none :=
  empty_question_no_external_call exWorld "" rfl

/-! ## Claim C2 -/

/-- C2: whenever the handler produces metrics, the reported cost equals
`prompt_tokens * INPUT_TOKEN_COST + completion_tokens * OUTPUT_TOKEN_COST`,
the prompt token count is computed from the question text, the completion
token count from the final answer text, and the two rates are the fixed
values `0.0002/1000` and `0.0008/1000`. -/
theorem instrumented_cost_formula (w : World) (q : String) (m : Metrics)
    (h : askHandler w q = some m) :
    m.cost = m.prompt_tokens * INPUT_TOKEN_COST + m.completion_tokens * OUTPUT_TOKEN_COST ∧
    m.prompt_tokens = tokenCount q ∧
    m.completion_tokens = tokenCount m.answer ∧
    INPUT_TOKEN_COST = 2 / 10000000 ∧
    OUTPUT_TOKEN_COST = 8 / 10000000 := by
  unfold askHandler at h
  split at h
  · simp only [Option.some.injEq] at h
    subst h
    refine ⟨rfl, rfl, rfl, ?_, ?_⟩
    · unfold INPUT_TOKEN_COST
      norm_num
    · unfold OUTPUT_TOKEN_COST
      norm_num
  · exact Option.noConfusion h

theorem instrumented_cost_formula_witness :
    exMetrics.cost =
      exMetrics.prompt_tokens * INPUT_TOKEN_COST +
        exMetrics.completion_tokens * OUTPUT_TOKEN_COST ∧
    exMetrics.prompt_tokens = tokenCount "ab" ∧
    exMetrics.completion_tokens = tokenCount exMetrics.answer ∧
    INPUT_TOKEN_COST = 2 / 10000000 ∧
    OUTPUT_TOKEN_COST = 8 / 10000000 :=
  instrumented_cost_formula exWorld "ab" exMetrics rfl

/-! ## Claim C5 -/

/-- C5: token-count determinism across runs.  Two handler runs in arbitrary
ambient worlds (different clocks, different chain behaviour) that receive the
same question string report the same prompt token count; likewise, if the two
runs end with the same answer text they report the same completion token
count.  The tokenizer is a fixed pure encoding, so the count depends only on
the encoded text. -/
theorem token_count_deterministic (w1 w2 : World) (q : String) (m1 m2 : Metrics)
    (h1 : askHandler w1 q = some m1) (h2 : askHandler w2 q = some m2) :
    m1.prompt_tokens = m2.prompt_tokens ∧
    (m1.answer = m2.answer → m1.completion_tokens = m2.completion_tokens) := by
  unfold askHandler at h1 h2
  split at h1
  · split at h2
    · simp only [Option.some.injEq] at h1 h2
      subst h1
      subst h2
      exact ⟨rfl, fun ha => congrArg tokenCount ha⟩
    · exact Option.noConfusion h2
  · exact Option.noConfusion h1

theorem token_count_deterministic_witness :
    exMetrics.prompt_tokens = exMetrics2.prompt_tokens ∧
    (exMetrics.answer = exMetrics2.answer →
      exMetrics.completion_tokens = exMetrics2.completion_tokens) :=
  token_count_deterministic exWorld exWorld2 "ab" exMetrics exMetrics2 rfl rfl

/-! ## Claim C6 -/

/-- C6: cost monotonicity.  With the configured positive rates fixed,
strictly increasing the prompt token count (completion count unchanged)
strictly increases the estimated cost, and likewise for the completion
token count. -/
theorem cost_strictly_monotone (p1 p2 c1 c2 : Nat) :
    (p1 < p2 → costOf p1 c1 < costOf p2 c1) ∧
    (c1 < c2 → costOf p1 c1 < costOf p1 c2) := by
  have hin : (0 : ℚ) < INPUT_TOKEN_COST := by
    unfold INPUT_TOKEN_COST
    norm_num
  have hout : (0 : ℚ) < OUTPUT_TOKEN_COST := by
    unfold OUTPUT_TOKEN_COST
    norm_num
  constructor
  · intro h
    unfold costOf
    have hq : (p1 : ℚ) < p2 := by exact_mod_cast h
    exact add_lt_add_right (mul_lt_mul_of_pos_right hq hin) _
  · intro h
    unfold costOf
    have hq : (c1 : ℚ) < c2 := by exact_mod_cast h
    exact add_lt_add_left (mul_lt_mul_of_pos_right hq hout) _

theorem cost_strictly_monotone_witness :
    costOf 1 3 < costOf 2 3 ∧ costOf 1 3 < costOf 1 4 :=
  ⟨(cost_strictly_monotone 1 2 3 4).1 (by decide),
   (cost_strictly_monotone 1 2 3 4).2 (by decide)⟩

/-! ## Claim C7 -/

/-- C7: every language-model invocation the pipeline makes carries the fixed
bounded generation parameters (`max_new_tokens = 512`, `top_p = 0.9`,
`temperature = 0.1`) attached by the endpoint's `model_kwargs`, and the text
handed back to the pipeline is exactly the `generated_text` field of the
response object. -/
theorem llm_invocation_params (endpointRespond : SMRequest → List (String × String))
    (prompt : String) (response_json : List (String × String)) (t : String) :
    (transform_input prompt modelKwargs).parameters = ⟨512, 9 / 10, 1 / 10⟩ ∧
    (lookupField "generated_text" response_json = some t →
      transform_output response_json = some t) ∧
    sagemakerInvoke endpointRespond prompt =
      transform_output (endpointRespond (transform_input prompt modelKwargs)) := by
  refine ⟨?_, fun h => h, rfl⟩
  show (⟨512, 0.9, 0.1⟩ : GenParams) = ⟨512, 9 / 10, 1 / 10⟩
  congr 1 <;> norm_num

theorem llm_invocation_params_witness :
    (transform_input "hi" modelKwargs).parameters = ⟨512, 9 / 10, 1 / 10⟩ ∧
    transform_output [("generated_text", "hello")] = some "hello" ∧
    sagemakerInvoke (fun _ => [("generated_text", "hello")]) "hi" =
      transform_output ((fun _ : SMRequest => [("generated_text", "hello")])
        (transform_input "hi" modelKwargs)) := by
  obtain ⟨a, b, c⟩ :=
    llm_invocation_params (fun _ => [("generated_text", "hello")]) "hi"
      [("generated_text", "hello")] "hello"
  exact ⟨a, b (by decide), c⟩

/-! ## Claim C8 -/

/-- C8: `run_query` is session-scoped.  The session is opened first and closed
last on every path — including when the store raises an error — and on success
all result rows are fetched (materialized into the returned list) strictly
before the session closes. -/
theorem run_query_session_scoped
    (store : String → Except String (List (List (String × String)))) (q : String) :
    (run_query store q).2.head? = some SessionEv.openSession ∧
    (run_query store q).2.getLast? = some SessionEv.closeSession ∧
    (∀ recs, store q = Except.ok recs →
      run_query store q = (Except.ok recs,
        SessionEv.openSession :: SessionEv.runCypher q ::
          (recs.map SessionEv.fetchRecord ++ [SessionEv.closeSession]))) ∧
    (∀ e, store q = Except.error e →
      run_query store q = (Except.error e,
        [SessionEv.openSession, SessionEv.runCypher q, SessionEv.closeSession])) := by
  unfold run_query
  cases hs : store q with
  | ok recs =>
    refine ⟨rfl, ?_, ?_, ?_⟩
    · have he : SessionEv.openSession :: SessionEv.runCypher q ::
          (recs.map SessionEv.fetchRecord ++ [SessionEv.closeSession]) =
          (SessionEv.openSession :: SessionEv.runCypher q ::
            recs.map SessionEv.fetchRecord) ++ [SessionEv.closeSession] := by
        simp
      show (SessionEv.openSession :: SessionEv.runCypher q ::
          (recs.map SessionEv.fetchRecord ++ [SessionEv.closeSession])).getLast? =
        some SessionEv.closeSession
      rw [he, List.getLast?_concat]
    · intro recs0 hr
      injection hr with hr
      subst hr
      rfl
    · intro e hr
      exact Except.noConfusion hr
  | error e =>
    refine ⟨rfl, rfl, ?_, ?_⟩
    · intro recs0 hr
      exact Except.noConfusion hr
    · intro e0 hr
      injection hr with hr
      subst hr
      rfl

theorem run_query_session_scoped_witness :
    run_query exStore "MATCH (n) RETURN n" = (Except.ok [[("name", "Acme")]],
      [SessionEv.openSession, SessionEv.runCypher "MATCH (n) RETURN n",
       SessionEv.fetchRecord [("name", "Acme")], SessionEv.closeSession]) :=
  (run_query_session_scoped exStore "MATCH (n) RETURN n").2.2.1 [[("name", "Acme")]] rfl

/-! ## Claim C3 -/

/-- C3: idempotence of ingestion.  Running the four per-table load steps
(parts, suppliers, supply-chain edges, compliance records) twice with
identical input rows — without the database-clearing step in between —
produces exactly the same graph (same nodes with the same properties, same
relationships) as running them once: merge-by-key creates no duplicate node
or relationship for a key that already exists.  The inputs are assumed
well-formed, keyed by their stable identifier column (no duplicate
`part_id` / `supplier_id` / `doc_id` within a file). -/
theorem ingestion_idempotent (p : List PartRow) (u : List SupplierRow)
    (s : List SupplyChainRow) (c : List ComplianceRow) (g : Graph)
    (hp : (p.map PartRow.part_id).Nodup)
    (hu : (u.map SupplierRow.supplier_id).Nodup)
    (hc : (c.map ComplianceRow.doc_id).Nodup) :
    loadAll p u s c (loadAll p u s c g) = loadAll p u s c g := by
  have hP : loadParts p (loadAll p u s c g) = loadAll p u s c g :=
    foldl_fix applyPartRow p _
      (fun b hb => applyPartRow_of_done (partRowDone_loadAll p u s c g b hp hb))
  have hU : loadSuppliers u (loadAll p u s c g) = loadAll p u s c g :=
    foldl_fix applySupplierRow u _
      (fun b hb => applySupplierRow_of_done (supplierRowDone_loadAll p u s c g b hu hb))
  have hS : loadSupplyChain s (loadAll p u s c g) = loadAll p u s c g :=
    foldl_fix applySupplyChainRow s _
      (fun b hb => applySupplyChainRow_of_done (supplyChainRowDone_loadAll p u s c g b hb))
  have hC : loadCompliance c (loadAll p u s c g) = loadAll p u s c g :=
    foldl_fix applyComplianceRow c _
      (fun b hb => applyComplianceRow_of_done (complianceRowDone_loadAll p u s c g b hc hb))
  show loadCompliance c (loadSupplyChain s (loadSuppliers u
      (loadParts p (loadAll p u s c g)))) = loadAll p u s c g
  rw [hP, hU, hS, hC]

theorem ingestion_idempotent_witness :
    loadAll exParts exSuppliers exSupplyChain exCompliance
        (loadAll exParts exSuppliers exSupplyChain exCompliance Graph.empty) =
      loadAll exParts exSuppliers exSupplyChain exCompliance Graph.empty :=
  ingestion_idempotent exParts exSuppliers exSupplyChain exCompliance Graph.empty
    (by decide) (by decide) (by decide)

/-! ## Claim C4 -/

/-- C4: every successful ingestion run is destructive and non-incremental.
When all four input files exist, the run issues `MATCH (n) DETACH DELETE n`
as its very first query — before the constraints and before any row is
loaded — and the resulting graph is `loadAll` of the input rows applied to
the empty graph: a function of the input files alone, containing nothing
from the pre-run graph state. -/
theorem ingestion_destructive (fs : FileSystem) (db : DB)
    (p : List PartRow) (u : List SupplierRow) (s : List SupplyChainRow)
    (c : List ComplianceRow)
    (hp : fs.partsFile = some p) (hu : fs.suppliersFile = some u)
    (hs : fs.supplyChainFile = some s) (hc : fs.complianceFile = some c) :
    ingest_data fs db = ⟨loadAll p u s c Graph.empty, db.log ++ ingestLog p u s c⟩ ∧
    ingestLog p u s c = Query.clearAll :: (constraintQueries ++
      [Query.loadPartsQ p, Query.loadSuppliersQ u, Query.loadSupplyChainQ s,
       Query.loadComplianceQ c]) := by
  obtain ⟨pf, uf, sf, cf⟩ := fs
  simp only at hp hu hs hc
  subst hp
  subst hu
  subst hs
  subst hc
  refine ⟨?_, rfl⟩
  simp [ingest_data, DB.runQuery, applyQuery, ingestLog, constraintQueries, loadAll,
    List.append_assoc]

theorem ingestion_destructive_witness :
    ingest_data exFS exDB =
      ⟨loadAll exParts exSuppliers exSupplyChain exCompliance Graph.empty,
        exDB.log ++ ingestLog exParts exSuppliers exSupplyChain exCompliance⟩ ∧
    ingestLog exParts exSuppliers exSupplyChain exCompliance =
      Query.clearAll :: (constraintQueries ++
        [Query.loadPartsQ exParts, Query.loadSuppliersQ exSuppliers,
         Query.loadSupplyChainQ exSupplyChain, Query.loadComplianceQ exCompliance]) :=
  ingestion_destructive exFS exDB exParts exSuppliers exSupplyChain exCompliance
    rfl rfl rfl rfl

/-! ## Claim C9 -/

/-- C9: if any of the four input CSV files does not exist, `ingest_data`
returns before issuing any query to the graph store: the query log is
unchanged — so the database is neither cleared nor written — and the graph
state is exactly what it was before the call. -/
theorem missing_file_aborts (fs : FileSystem) (db : DB)
    (h : fs.partsFile = none ∨ fs.suppliersFile = none ∨
      fs.supplyChainFile = none ∨ fs.complianceFile = none) :
    ingest_data fs db = db := by
  obtain ⟨pf, uf, sf, cf⟩ := fs
  rcases pf with _ | p <;> rcases uf with _ | u <;> rcases sf with _ | s <;>
    rcases cf with _ | c <;> first | rfl | simp at h

theorem missing_file_aborts_witness : ingest_data exFS0 exDB = exDB :=
  missing_file_aborts exFS0 exDB (Or.inl rfl)

/-! ## Claim C10 -/

/-- C10: after an ingestion run (which starts from a cleared graph), every
`SUPPLIED_BY` relationship connects a `Part` node created from the parts
input to a `Supplier` node created from the suppliers input, and every
`HAS_COMPLIANCE` relationship starts at such a `Part` node; moreover a
supply-chain or compliance row whose `part_id` / `supplier_id` matches no
loaded node creates no relationship and no node — it is silently dropped. -/
theorem relationship_endpoints_sourced (p : List PartRow) (u : List SupplierRow)
    (s : List SupplyChainRow) (c : List ComplianceRow) :
    (∀ x, x ∈ (loadAll p u s c Graph.empty).rels →
      (x.relType = RelType.SUPPLIED_BY →
        ∃ pid sid, x.src = NodeKey.part pid ∧ pid ∈ p.map PartRow.part_id ∧
          x.dst = NodeKey.supplier sid ∧ sid ∈ u.map SupplierRow.supplier_id ∧
          hasNode x.src (loadAll p u s c Graph.empty) = true ∧
          hasNode x.dst (loadAll p u s c Graph.empty) = true) ∧
      (x.relType = RelType.HAS_COMPLIANCE →
        ∃ pid, x.src = NodeKey.part pid ∧ pid ∈ p.map PartRow.part_id ∧
          hasNode x.src (loadAll p u s c Graph.empty) = true)) ∧
    (∀ (g : Graph) (r : SupplyChainRow),
      (hasNode (NodeKey.part r.part_id) g &&
        hasNode (NodeKey.supplier r.supplier_id) g) = false →
      applySupplyChainRow g r = g) ∧
    (∀ (g : Graph) (r : ComplianceRow),
      hasNode (NodeKey.part r.part_id) g = false → applyComplianceRow g r = g) := by
  obtain ⟨hsrc, hrel⟩ := ingestInv_loadAll p u s c
  refine ⟨?_, ?_, ?_⟩
  · intro x hm
    obtain ⟨c1, c2⟩ := hrel x hm
    refine ⟨?_, ?_⟩
    · intro ht
      obtain ⟨pid, sid, e1, e2, e3, e4⟩ := c1 ht
      have h5 : (findProps (NodeKey.part pid)
          (loadAll p u s c Graph.empty).nodes).isSome = true := by
        rw [e1] at e3
        exact e3
      have h6 : (findProps (NodeKey.supplier sid)
          (loadAll p u s c Graph.empty).nodes).isSome = true := by
        rw [e2] at e4
        exact e4
      obtain ⟨pr, hpr⟩ := findProps_isSome_mem h5
      obtain ⟨sr, hsr⟩ := findProps_isSome_mem h6
      exact ⟨pid, sid, e1, (hsrc (NodeKey.part pid, pr) hpr).1 pid rfl,
        e2, (hsrc (NodeKey.supplier sid, sr) hsr).2 sid rfl, e3, e4⟩
    · intro ht
      obtain ⟨pid, e1, e3⟩ := c2 ht
      have h5 : (findProps (NodeKey.part pid)
          (loadAll p u s c Graph.empty).nodes).isSome = true := by
        rw [e1] at e3
        exact e3
      obtain ⟨pr, hpr⟩ := findProps_isSome_mem h5
      exact ⟨pid, e1, (hsrc (NodeKey.part pid, pr) hpr).1 pid rfl, e3⟩
  · intro g r hmiss
    simp [applySupplyChainRow, hmiss]
  · intro g r hmiss
    simp [applyComplianceRow, hmiss]

theorem relationship_endpoints_sourced_witness :
    (∃ pid sid,
      (⟨RelType.SUPPLIED_BY, NodeKey.part "p1", NodeKey.supplier "s1"⟩ : GraphRel).src =
        NodeKey.part pid ∧
      pid ∈ exParts.map PartRow.part_id ∧
      (⟨RelType.SUPPLIED_BY, NodeKey.part "p1", NodeKey.supplier "s1"⟩ : GraphRel).dst =
        NodeKey.supplier sid ∧
      sid ∈ exSuppliers.map SupplierRow.supplier_id ∧
      hasNode (⟨RelType.SUPPLIED_BY, NodeKey.part "p1", NodeKey.supplier "s1"⟩ : GraphRel).src
        (loadAll exParts exSuppliers exSupplyChain exCompliance Graph.empty) = true ∧
      hasNode (⟨RelType.SUPPLIED_BY, NodeKey.part "p1", NodeKey.supplier "s1"⟩ : GraphRel).dst
        (loadAll exParts exSuppliers exSupplyChain exCompliance Graph.empty) = true) ∧
    applySupplyChainRow Graph.empty ⟨"p1", "s1"⟩ = Graph.empty :=
  ⟨((relationship_endpoints_sourced exParts exSuppliers exSupplyChain exCompliance).1
      ⟨RelType.SUPPLIED_BY, NodeKey.part "p1", NodeKey.supplier "s1"⟩ (by decide)).1 rfl,
   (relationship_endpoints_sourced exParts exSuppliers exSupplyChain exCompliance).2.1
      Graph.empty ⟨"p1", "s1"⟩ (by decide)⟩
